import Mathlib

/-!
Shallow embedding of the realm-js schema-normalization pipeline
(packages/realm/src/schema/normalize.js) and of the List / Dictionary
collection adapters (List.js, Dictionary.js), together with theorems
settling the specification claims against the code.
-/

deriving instance DecidableEq for Except

namespace RealmSpec

/-- Errors thrown by the normalization pipeline: the source throws plain
JavaScript Error objects (and AssertionError from failed assert calls);
we record only the message. -/
inductive SchemaErr where
  | err (msg : String)
deriving DecidableEq, Repr

/-- Modelled from the spec: the key set of TYPE_MAPPINGS, which normalize.js
imports from ../internal (not among the sources). Spec section 3 gives the
closed enumeration of directly-mappable type names. -/
def typeMappings : List String :=
  ["bool", "int", "float", "double", "decimal128", "objectId", "string",
   "data", "date", "mixed", "uuid", "object", "list", "set", "dictionary"]

/-- The set PRIMITIVE_TYPES from normalize.js. -/
def primitiveTypes : List String :=
  ["bool", "int", "float", "double", "decimal128", "objectId", "string",
   "data", "date", "mixed", "uuid"]

/-- The function isPrimitive from normalize.js. -/
def isPrimitive (type : String) : Bool :=
  primitiveTypes.contains type

/-- Result shape of normalizePropertyType: a JavaScript object with a
mandatory type field and possibly-absent objectType and optional fields
(absent keys are modelled as none). -/
structure ParsedPropertyType where
  type : String
  objectType : Option String := none
  optional : Option Bool := none
deriving DecidableEq, Repr

/-- JavaScript truthiness of a possibly-absent string: undefined and the
empty string are the falsy cases (used by the check on item.objectType
in the [] branch of normalizePropertyType). -/
def falsyOptStr : Option String → Bool
  | none => true
  | some s => s == ""

/-- String rebuilt from a reversed character list. -/
def strOfRev (rev : List Char) : String :=
  ⟨rev.reverse⟩

/-- Core of normalizePropertyType from normalize.js, written on the reversed
character list of the type string: each suffix test of the source (endsWith
of the two-character collection markers, then of the question mark), checked
in the source order, becomes a pattern on the reversed list; the branch
bodies are literal translations of the source. -/
def parseRev (allowObjectType : Bool) : List Char → Except SchemaErr ParsedPropertyType
  | ']' :: '[' :: restRev =>
      if !allowObjectType then
        .error (.err "Expected no objectType in property schema, when using the [] shorthand")
      else
        (parseRev true restRev).bind fun item =>
          if !(item.type == "object" || falsyOptStr item.objectType) then
            .error (.err "Unexpected nested object type")
          else
            .ok { type := "list",
                  objectType := if item.type == "object" then item.objectType else some item.type,
                  optional := some (if item.type == "object" then false else item.optional.getD false) }
  | '>' :: '<' :: restRev =>
      if !allowObjectType then
        .error (.err "Expected no objectType in property schema, when using the set shorthand")
      else
        (if restRev.isEmpty then .ok { type := "mixed" } else parseRev true restRev).bind fun item =>
          .ok { type := "set",
                objectType := if item.type == "object" then item.objectType else some item.type,
                optional := some (if item.type == "object" then true else item.optional.getD false) }
  | '}' :: '{' :: restRev =>
      if !allowObjectType then
        .error (.err "Expected no objectType in property schema, when using the dictionary shorthand")
      else
        (if restRev.isEmpty then .ok { type := "mixed", optional := some true }
         else parseRev true restRev).bind fun item =>
          .ok { type := "dictionary",
                objectType := if item.type == "object" then item.objectType else some item.type,
                optional := some (if item.type == "object" then true else item.optional.getD false) }
  | '?' :: restRev =>
      .ok { type := strOfRev restRev, optional := some true }
  | rev =>
      let t := strOfRev rev
      if typeMappings.contains t then
        if t == "dictionary" then .ok { type := t, objectType := some "mixed", optional := some true }
        else if t == "set" then .ok { type := t, objectType := some "mixed", optional := some true }
        else if t == "mixed" then .ok { type := t, optional := some true }
        else .ok { type := t }
      else
        .ok { type := "object", objectType := some t, optional := some true }

/-- The function normalizePropertyType from normalize.js (the second
argument defaults to true at every call site that omits it; we always pass
it explicitly). -/
def normalizePropertyType (t : String) (allowObjectType : Bool) : Except SchemaErr ParsedPropertyType :=
  parseRev allowObjectType t.data.reverse

/-- Canonical property schema produced by normalizePropertySchema: the
object literal with defaults indexedis false, optional is false, mapTo is
the property name, overridden by the merged schema, and with name set
unconditionally. -/
structure CanonicalPropertySchema where
  name : String
  type : String
  objectType : Option String := none
  optional : Bool := false
  indexed : Bool := false
  mapTo : String
deriving DecidableEq, Repr

/-- Object form of a raw property declaration: the fields of an
ObjectSchemaProperty that the normalizer reads; absent keys (undefined in
JavaScript) are modelled as none. The source destructures it as
the pair type and rest. -/
structure PropertyDeclObj where
  type : String
  objectType : Option String := none
  optional : Option Bool := none
  indexed : Option Bool := none
  mapTo : Option String := none
deriving DecidableEq, Repr

/-- Raw property declaration: either a shorthand string or an object. -/
inductive PropertyDecl where
  | str (s : String)
  | obj (d : PropertyDeclObj)
deriving DecidableEq, Repr

/-- Object declaration built from a parse result, used by the string branch
of normalizePropertySchema, which feeds the result of normalizePropertyType
back in as an object declaration. -/
def declOfParsed (p : ParsedPropertyType) : PropertyDeclObj :=
  { type := p.type, objectType := p.objectType, optional := p.optional }

/-- Merged objectType of the spread merge in normalizePropertySchema: the
rest value wins when present, otherwise the field of the parse result
survives (undefined values are dropped on both sides before merging). -/
def mergedObjectType (d : PropertyDeclObj) (parsed : ParsedPropertyType) : Option String :=
  if d.objectType.isSome then d.objectType else parsed.objectType

/-- Merged optional of the spread, same discipline as mergedObjectType. -/
def mergedOptional (d : PropertyDeclObj) (parsed : ParsedPropertyType) : Option Bool :=
  if d.optional.isSome then d.optional else parsed.optional

/-- Object branch of normalizePropertySchema from normalize.js. The spread
merge of removeUndefinedValues(propertySchemaFromType) with
removeUndefinedValues(rest) is modelled field-wise (rest never carries
type, which was destructured away; indexed and mapTo come only from
rest). -/
def normalizePropertySchemaObj (name : String) (d : PropertyDeclObj) :
    Except SchemaErr CanonicalPropertySchema :=
  (normalizePropertyType d.type d.objectType.isNone).bind fun parsed =>
    if (parsed.type == "mixed" || mergedObjectType d parsed == some "mixed")
        && mergedOptional d parsed == some false then
      .error (.err "Mixed values should be declared as optional")
    else
      .ok { indexed := d.indexed.getD false,
            optional := (mergedOptional d parsed).getD false,
            mapTo := d.mapTo.getD name,
            type := parsed.type,
            objectType := mergedObjectType d parsed,
            name := name }

/-- The function normalizePropertySchema from normalize.js: a string
declaration is parsed and the parse result re-entered through the object
branch. -/
def normalizePropertySchema (name : String) : PropertyDecl → Except SchemaErr CanonicalPropertySchema
  | .str s =>
      (normalizePropertyType s true).bind fun parsed =>
        normalizePropertySchemaObj name (declOfParsed parsed)
  | .obj d => normalizePropertySchemaObj name d

/-- JavaScript truthiness of a possibly-absent value used where validate
reads optional from a canonical schema (already a Bool there). Kept for the
isPrimitive test on a possibly-absent objectType: isPrimitive(undefined) is
false, since the set contains only strings. -/
def isPrimitiveOpt : Option String → Bool
  | none => false
  | some s => isPrimitive s

/-- The function validateCanonicalPropertySchema from normalize.js. -/
def validateCanonicalPropertySchema (objectSchemaName : String)
    (c : CanonicalPropertySchema) : Except SchemaErr Unit :=
  if c.type == "list" && c.objectType == some "list" then
    .error (.err ("List property " ++ objectSchemaName ++ "#" ++ c.name ++ " cannot have list elements"))
  else if c.type == "list" && !isPrimitiveOpt c.objectType && c.optional then
    .error (.err ("List property " ++ objectSchemaName ++ "#" ++ c.name ++ " of nonprimitive elements, cannot be optional"))
  else if c.objectType == some "" then
    .error (.err ("Property " ++ objectSchemaName ++ "#" ++ c.name ++ " cannot have an empty object type"))
  else
    .ok ()

/-- Properties field of a raw object-schema declaration: either the mapping
form (a JavaScript object, modelled as its Object.entries association list,
duplicate-free by construction in JavaScript) or the legacy array form of
entries carrying a name next to the rest of the declaration. -/
inductive PropertiesDecl where
  | map (entries : List (String × PropertyDecl))
  | array (entries : List (String × PropertyDeclObj))
deriving DecidableEq, Repr

/-- Raw object-schema declaration (the object-like branch of
normalizeObjectSchema; the class-like branch only recurses into this one
and attaches a constructor reference, which we do not model). -/
structure ObjectSchemaDecl where
  name : String
  primaryKey : Option String := none
  asymmetric : Option Bool := none
  embedded : Option Bool := none
  properties : PropertiesDecl
deriving DecidableEq, Repr

/-- Canonical object schema (constructor reference not modelled). -/
structure CanonicalObjectSchema where
  name : String
  primaryKey : Option String := none
  asymmetric : Bool := false
  embedded : Bool := false
  properties : List (String × CanonicalPropertySchema)
deriving DecidableEq, Repr

/-- JavaScript object insertion: overwrite in place when the key exists,
append otherwise. -/
def jsInsert (m : List (String × β)) (k : String) (v : β) : List (String × β) :=
  if m.any (fun p => p.1 == k) then
    m.map (fun p => if p.1 == k then (k, v) else p)
  else
    m ++ [(k, v)]

/-- Object.fromEntries: builds a JavaScript object from an entry list,
keeping the first position and the last value for a duplicated key. -/
def jsFromEntries : List (String × β) → List (String × β) :=
  List.foldl (fun m p => jsInsert m p.1 p.2) []

/-- Per-entry body of the properties mapping in normalizeObjectSchema:
normalize the property, force indexed on the primary key, validate, and
keep declaration order. -/
def normalizeObjectProperties (primaryKey : Option String) (objectSchemaName : String) :
    List (String × PropertyDecl) → Except SchemaErr (List (String × CanonicalPropertySchema))
  | [] => .ok []
  | (name, p) :: rest =>
      (normalizePropertySchema name p).bind fun c0 =>
        let c := if primaryKey == some name then { c0 with indexed := true } else c0
        (validateCanonicalPropertySchema objectSchemaName c).bind fun _ =>
          (normalizeObjectProperties primaryKey objectSchemaName rest).bind fun others =>
            .ok ((name, c) :: others)

/-- Mapping-form body of normalizeObjectSchema from normalize.js. -/
def normalizeObjectSchemaCore (arg : ObjectSchemaDecl)
    (entries : List (String × PropertyDecl)) : Except SchemaErr CanonicalObjectSchema :=
  (normalizeObjectProperties arg.primaryKey arg.name entries).bind fun props =>
    .ok { name := arg.name,
          primaryKey := arg.primaryKey,
          asymmetric := arg.asymmetric.getD false,
          embedded := arg.embedded.getD false,
          properties := props }

/-- Legacy array form rewritten to the mapping form, exactly as the source
does it: Object.fromEntries over the entries mapped to pairs of the name
and the rest of the declaration. -/
def rewriteArrayProperties (entries : List (String × PropertyDeclObj)) : PropertiesDecl :=
  .map (jsFromEntries (entries.map (fun e => (e.1, PropertyDecl.obj e.2))))

/-- The object-like branch of normalizeObjectSchema from normalize.js,
parameterized by the flags.ALLOW_VALUES_ARRAYS feature flag (module state
imported from ../internal). -/
def normalizeObjectSchema (allowValuesArrays : Bool) (arg : ObjectSchemaDecl) :
    Except SchemaErr CanonicalObjectSchema :=
  match arg.properties with
  | .map entries => normalizeObjectSchemaCore arg entries
  | .array entries =>
      if allowValuesArrays then
        normalizeObjectSchemaCore { arg with properties := rewriteArrayProperties entries }
          (jsFromEntries (entries.map (fun e => (e.1, PropertyDecl.obj e.2))))
      else
        .error (.err "Array of properties are no longer supported")

/-- Errors surfaced by a collection adapter operation: the failed
assert.inTransaction, or an error from the storage engine. -/
inductive AdapterErr where
  | transactionState
  | outOfBounds
deriving DecidableEq, Repr

/-- Modelled from the spec: the storage engine internal.getAny(i), a
bounds-checked element access of the native list handle (spec section 6;
the binding itself is imported from ./internal and is not among the
sources). -/
def bindingGetAny (l : List α) (i : Int) : Except AdapterErr α :=
  if 0 ≤ i then
    match l[i.toNat]? with
    | some v => .ok v
    | none => .error .outOfBounds
  else
    .error .outOfBounds

/-- Modelled from the spec: the storage engine internal.remove(i), a
bounds-checked removal of the element at index i (spec section 6). -/
def bindingRemove (l : List α) (i : Int) : Except AdapterErr (List α) :=
  if 0 ≤ i ∧ i < (l.length : Int) then
    .ok (l.take i.toNat ++ l.drop (i.toNat + 1))
  else
    .error .outOfBounds

/-- Modelled from the spec: the storage engine internal.insertAny(i, v), a
bounds-checked insertion before index i (spec section 6). -/
def bindingInsertAny (l : List α) (i : Int) (v : α) : Except AdapterErr (List α) :=
  if 0 ≤ i ∧ i ≤ (l.length : Int) then
    .ok (l.take i.toNat ++ v :: l.drop i.toNat)
  else
    .error .outOfBounds

/-- The method List.pop from List.js: assert the write transaction, then
marshal and remove the last element, or return undefined on an empty list.
The realm argument is reduced to its inTransaction state, the injected
fromBinding helper is the first argument, and the mutated native list is
returned next to the popped value. -/
def listPop (fromBinding : α → β) (inTx : Bool) (l : List α) :
    Except AdapterErr (Option β × List α) :=
  if !inTx then .error .transactionState
  else
    let lastIndex : Int := (l.length : Int) - 1
    if 0 ≤ lastIndex then
      (bindingGetAny l lastIndex).bind fun v =>
        (bindingRemove l lastIndex).bind fun l' =>
          .ok (some (fromBinding v), l')
    else
      .ok (none, l)

/-- The method List.shift from List.js: same as pop at the first index. -/
def listShift (fromBinding : α → β) (inTx : Bool) (l : List α) :
    Except AdapterErr (Option β × List α) :=
  if !inTx then .error .transactionState
  else
    if 0 < l.length then
      (bindingGetAny l 0).bind fun v =>
        (bindingRemove l 0).bind fun l' =>
          .ok (some (fromBinding v), l')
    else
      .ok (none, l)

/-- Read loop of List.splice: for i from start while i < end, push
fromBinding(internal.getAny(i)); written with the iteration count as fuel
(the count is end minus start, clamped at zero). -/
def spliceRead (fromBinding : α → β) (l : List α) : Int → Nat → Except AdapterErr (List β)
  | _, 0 => .ok []
  | i, Nat.succ n =>
      (bindingGetAny l i).bind fun v =>
        (spliceRead fromBinding l (i + 1) n).bind fun rest =>
          .ok (fromBinding v :: rest)

/-- Removal loop of List.splice: for i from end minus one down to start,
internal.remove(i); the source iterates backwards to avoid index shift. -/
def spliceRemoveLoop (start : Int) : List α → Nat → Except AdapterErr (List α)
  | l, 0 => .ok l
  | l, Nat.succ n =>
      (bindingRemove l (start + n)).bind fun l' =>
        spliceRemoveLoop start l' n

/-- Insertion loop of List.splice: for each offset and item of the items
argument in order, internal.insertAny(start + offset, toBinding(item)). -/
def spliceInsertLoop (toBinding : β → α) (start : Int) :
    List α → Nat → List β → Except AdapterErr (List α)
  | l, _, [] => .ok l
  | l, off, item :: rest =>
      (bindingInsertAny l (start + off) (toBinding item)).bind fun l' =>
        spliceInsertLoop toBinding start l' (off + 1) rest

/-- Start-index normalization of List.splice, exactly as in the source: a
negative start has the size added (with no further clamping), then a start
beyond the size is clamped to the size. -/
def spliceStartInt (size : Nat) (start : Int) : Int :=
  let s := if start < 0 then (size : Int) + start else start
  if s > (size : Int) then (size : Int) else s

/-- End index of List.splice: the minimum of start + deleteCount and the
size when deleteCount is a number, otherwise the size. -/
def spliceEndInt (size : Nat) (start : Int) (deleteCount : Option Int) : Int :=
  match deleteCount with
  | some d => min (spliceStartInt size start + d) (size : Int)
  | none => (size : Int)

/-- The method List.splice from List.js: assert the write transaction,
normalize the start index, compute the end index, read the elements about
to be deleted, remove them from the highest index downward, then insert the
new items in argument order; returns the removed (marshalled) elements next
to the mutated native list. -/
def listSplice (fromBinding : α → β) (toBinding : β → α) (inTx : Bool) (l : List α)
    (start : Int) (deleteCount : Option Int) (items : List β) :
    Except AdapterErr (List β × List α) :=
  if !inTx then .error .transactionState
  else
    let s := spliceStartInt l.length start
    let e := spliceEndInt l.length start deleteCount
    (spliceRead fromBinding l s (e - s).toNat).bind fun removed =>
      (spliceRemoveLoop s l (e - s).toNat).bind fun l' =>
        (spliceInsertLoop toBinding s l' 0 items).bind fun l'' =>
          .ok (removed, l'')

/-- Values crossing the binding boundary in a dictionary change set (the
keys reported by the engine are Mixed values that the adapter asserts to be
strings). -/
inductive MixedVal where
  | str (s : String)
  | num (n : Int)
  | other
deriving DecidableEq, Repr

/-- Exceptions that can be raised inside the notification delivery wrapper:
a failed assert.string on a reported key, or an exception thrown by the
user callback. -/
inductive CallbackErr where
  | assertionFailed (msg : String)
  | userError (code : Nat)
deriving DecidableEq, Repr

/-- Change set handed to addKeyBasedNotificationCallback by the engine. -/
structure DictChangeSet where
  deletions : List MixedVal
  insertions : List MixedVal
  modifications : List MixedVal
deriving DecidableEq, Repr

/-- Change set handed to the user callback after key assertions. -/
structure DictStringChangeSet where
  deletions : List String
  insertions : List String
  modifications : List String
deriving DecidableEq, Repr

/-- The call assert.string(value) from the Dictionary notification
wrapper. -/
def assertString : MixedVal → Except CallbackErr String
  | .str s => .ok s
  | _ => .error (.assertionFailed "Expected a string")

/-- Body of the try block in the Dictionary constructor notification
wrapper: assert every reported key is a string, then invoke the user
callback on the string change set. The user callback is modelled as a
function that may itself raise. -/
def notificationAttempt (callback : DictStringChangeSet → Except CallbackErr Unit)
    (changes : DictChangeSet) : Except CallbackErr Unit :=
  (changes.deletions.mapM assertString).bind fun ds =>
    (changes.insertions.mapM assertString).bind fun is =>
      (changes.modifications.mapM assertString).bind fun ms =>
        callback { deletions := ds, insertions := is, modifications := ms }

/-- The notification delivery wrapper installed by the Dictionary
constructor (Dictionary.js): the try block runs the assertions and the user
callback; the catch block reschedules the caught exception through
setImmediate instead of rethrowing. The first component is what the wrapper
returns synchronously into the engine call stack; the second is the
exception deferred to the scheduling loop (none when nothing was thrown). -/
def dictionaryNotificationWrapper (callback : DictStringChangeSet → Except CallbackErr Unit)
    (changes : DictChangeSet) : Except CallbackErr Unit × Option CallbackErr :=
  match notificationAttempt callback changes with
  | .ok _ => (.ok (), none)
  | .error e => (.ok (), some e)

/-- Nat start equivalent of the splice start normalization (well defined
because the normalized start is nonnegative whenever the raw start is at
least minus the size). -/
def spliceStartNat (size : Nat) (start : Int) : Nat :=
  (spliceStartInt size start).toNat

/-- Number of iterations of the read and removal loops of splice. -/
def spliceCountNat (size : Nat) (start : Int) (deleteCount : Option Int) : Nat :=
  (spliceEndInt size start deleteCount - spliceStartInt size start).toNat

theorem spliceStartInt_nonneg {size : Nat} {start : Int} (h : -(size : Int) ≤ start) :
    0 ≤ spliceStartInt size start := by
  simp only [spliceStartInt]
  split_ifs <;> omega

theorem spliceStartInt_le (size : Nat) (start : Int) :
    spliceStartInt size start ≤ (size : Int) := by
  simp only [spliceStartInt]
  split_ifs <;> omega

theorem spliceEndInt_le (size : Nat) (start : Int) (dc : Option Int) :
    spliceEndInt size start dc ≤ (size : Int) := by
  cases dc with
  | none => simp [spliceEndInt]
  | some d => exact min_le_right _ _

theorem spliceRead_ok (fromB : α → β) (l : List α) :
    ∀ (k s : Nat), s + k ≤ l.length →
      spliceRead fromB l (s : Int) k = .ok (((l.drop s).take k).map fromB)
  | 0, s, _ => by simp [spliceRead]
  | Nat.succ k, s, h => by
      have hs : s < l.length := by omega
      have hget : bindingGetAny l (s : Int) = .ok l[s] := by
        simp [bindingGetAny, List.getElem?_eq_getElem hs]
      have hcast : (s : Int) + 1 = ((s + 1 : Nat) : Int) := by push_cast; ring
      have ih := spliceRead_ok fromB l k (s + 1) (by omega)
      simp only [spliceRead, hget, hcast, ih, Except.bind]
      rw [List.drop_eq_getElem_cons hs, List.take_succ_cons, List.map_cons]

theorem spliceRemoveLoop_ok (s : Nat) :
    ∀ (k : Nat) (l : List α), s + k ≤ l.length →
      spliceRemoveLoop (s : Int) l k = .ok (l.take s ++ l.drop (s + k))
  | 0, l, _ => by simp [spliceRemoveLoop]
  | Nat.succ k, l, h => by
      have hk : s + k < l.length := by omega
      have hcast : (s : Int) + (k : Nat) = ((s + k : Nat) : Int) := by push_cast; ring
      have hrem : bindingRemove l ((s : Int) + (k : Nat)) =
          .ok (l.take (s + k) ++ l.drop (s + k + 1)) := by
        rw [hcast]
        simp only [bindingRemove]
        rw [if_pos (by constructor <;> omega)]
        simp only [Int.toNat_natCast]
      have hlen : (l.take (s + k) ++ l.drop (s + k + 1)).length = l.length - 1 := by
        simp [List.length_take, List.length_drop]
        omega
      have ih := spliceRemoveLoop_ok s k (l.take (s + k) ++ l.drop (s + k + 1)) (by omega)
      have htk : (l.take (s + k) ++ l.drop (s + k + 1)).take s = l.take s := by
        rw [List.take_append_of_le_length (by simp [List.length_take]; omega),
            List.take_take]
        congr 1
        omega
      have hdr : (l.take (s + k) ++ l.drop (s + k + 1)).drop (s + k) = l.drop (s + k + 1) := by
        have hlt : (l.take (s + k)).length = s + k := by simp [List.length_take]; omega
        have hd := List.drop_left (l.take (s + k)) (l.drop (s + k + 1))
        rwa [hlt] at hd
      simp only [spliceRemoveLoop, hrem, Except.bind, ih, htk, hdr]
      rw [show s + Nat.succ k = s + k + 1 from rfl]

theorem spliceInsertLoop_ok (toB : β → α) (s : Nat) :
    ∀ (items : List β) (off : Nat) (l : List α), s + off ≤ l.length →
      spliceInsertLoop toB (s : Int) l off items =
        .ok (l.take (s + off) ++ items.map toB ++ l.drop (s + off))
  | [], off, l, _ => by simp [spliceInsertLoop, List.take_append_drop]
  | item :: rest, off, l, h => by
      have hcast : (s : Int) + (off : Nat) = ((s + off : Nat) : Int) := by push_cast; ring
      have hins : bindingInsertAny l ((s : Int) + (off : Nat)) (toB item) =
          .ok (l.take (s + off) ++ toB item :: l.drop (s + off)) := by
        rw [hcast]
        simp only [bindingInsertAny]
        rw [if_pos (by constructor <;> omega)]
        simp only [Int.toNat_natCast]
      have hAlen : (l.take (s + off)).length = s + off := by simp [List.length_take]; omega
      have hlen : (l.take (s + off) ++ toB item :: l.drop (s + off)).length = l.length + 1 := by
        simp [List.length_take, List.length_drop]
        omega
      have ih := spliceInsertLoop_ok toB s rest (off + 1)
        (l.take (s + off) ++ toB item :: l.drop (s + off)) (by omega)
      have htk : (l.take (s + off) ++ toB item :: l.drop (s + off)).take (s + (off + 1)) =
          l.take (s + off) ++ [toB item] := by
        rw [show s + (off + 1) = (l.take (s + off)).length + 1 from by omega,
            List.take_append]
        simp
      have hdr : (l.take (s + off) ++ toB item :: l.drop (s + off)).drop (s + (off + 1)) =
          l.drop (s + off) := by
        rw [show s + (off + 1) = (l.take (s + off)).length + 1 from by omega,
            List.drop_append]
        simp
      simp only [spliceInsertLoop, hins, Except.bind, ih, htk, hdr, List.map_cons]
      simp

/-- Start normalization of splice as the claim states it: negative start
counts from the end and clamps to zero, start beyond the length clamps to
the length. Stated from the claim wording, for comparison with the code
model spliceStartInt, which performs no clamp at zero. -/
def spliceClampedStart (size : Nat) (start : Int) : Int :=
  let s := if start < 0 then (size : Int) + start else start
  let s := if s < 0 then 0 else s
  if s > (size : Int) then (size : Int) else s

/-- C3 counterexample: splice(-5) on a 3-element list. Under the claim the
start clamps to 0 and, with deleteCount omitted, all three elements are
removed and returned; the code does not clamp (start stays -2) and the read
loop reaches the engine with a negative index, faulting out of bounds. -/
theorem claim_c3_counterexample :
    spliceClampedStart 3 (-5) = 0
    ∧ listSplice (id : Nat → Nat) id true [1, 2, 3] (-5) none [] = .error .outOfBounds
    ∧ listSplice (id : Nat → Nat) id true [1, 2, 3] (-5) none [] ≠
        .ok ([1, 2, 3], ([] : List Nat)) := by
  refine ⟨by decide, by decide, ?_⟩
  decide

/-- C3 (amended): for every list, every start at least minus the length
(the amendment: the code never clamps a negative start to zero, so starts
below minus the length fault in the engine instead), every deleteCount
(omitted modelled as none) and every item sequence, splice inside a write
transaction succeeds: the start index is normalized as in the source
(negative counts from the end, beyond-length clamps to the length), an
omitted deleteCount removes through the end, the removed elements are
returned marshalled in original order, and the final list is the prefix
before the normalized start, then the items in argument order, then the
suffix after the removed range — the net effect of removing from the
highest index downward and inserting at the normalized start. -/
theorem claim_c3_amended {α β : Type} (fromB : α → β) (toB : β → α) (l : List α)
    (start : Int) (dc : Option Int) (items : List β)
    (h : -(l.length : Int) ≤ start) :
    listSplice fromB toB true l start dc items =
      .ok (((l.drop (spliceStartNat l.length start)).take
              (spliceCountNat l.length start dc)).map fromB,
           l.take (spliceStartNat l.length start)
             ++ items.map toB
             ++ l.drop (spliceStartNat l.length start + spliceCountNat l.length start dc)) := by
  have hs0 : 0 ≤ spliceStartInt l.length start := spliceStartInt_nonneg h
  have hsle : spliceStartInt l.length start ≤ (l.length : Int) := spliceStartInt_le _ _
  have hele : spliceEndInt l.length start dc ≤ (l.length : Int) := spliceEndInt_le _ _ _
  have hcast : spliceStartInt l.length start = ((spliceStartNat l.length start : Nat) : Int) :=
    (Int.toNat_of_nonneg hs0).symm
  have hsk : spliceStartNat l.length start + spliceCountNat l.length start dc ≤ l.length := by
    simp only [spliceStartNat, spliceCountNat]
    omega
  have hsn : spliceStartNat l.length start ≤ l.length := by
    simp only [spliceStartNat]
    omega
  have hkdef : (spliceEndInt l.length start dc - spliceStartInt l.length start).toNat =
      spliceCountNat l.length start dc := rfl
  have hread := spliceRead_ok fromB l (spliceCountNat l.length start dc)
    (spliceStartNat l.length start) hsk
  have hrem := spliceRemoveLoop_ok (spliceStartNat l.length start)
    (spliceCountNat l.length start dc) l hsk
  have hAlen : (l.take (spliceStartNat l.length start)).length = spliceStartNat l.length start := by
    simp [List.length_take]
    omega
  have hlen' : (l.take (spliceStartNat l.length start)
      ++ l.drop (spliceStartNat l.length start + spliceCountNat l.length start dc)).length =
      l.length - spliceCountNat l.length start dc := by
    simp [List.length_take, List.length_drop]
    omega
  have hins := spliceInsertLoop_ok toB (spliceStartNat l.length start) items 0
    (l.take (spliceStartNat l.length start)
      ++ l.drop (spliceStartNat l.length start + spliceCountNat l.length start dc))
    (by omega)
  have htk : (l.take (spliceStartNat l.length start)
      ++ l.drop (spliceStartNat l.length start + spliceCountNat l.length start dc)).take
        (spliceStartNat l.length start + 0) = l.take (spliceStartNat l.length start) := by
    rw [Nat.add_zero,
        List.take_append_of_le_length (by rw [hAlen]),
        List.take_take, min_self]
  have hdr : (l.take (spliceStartNat l.length start)
      ++ l.drop (spliceStartNat l.length start + spliceCountNat l.length start dc)).drop
        (spliceStartNat l.length start + 0) =
      l.drop (spliceStartNat l.length start + spliceCountNat l.length start dc) := by
    rw [Nat.add_zero]
    have hd := List.drop_left (l.take (spliceStartNat l.length start))
      (l.drop (spliceStartNat l.length start + spliceCountNat l.length start dc))
    rwa [hAlen] at hd
  rw [htk, hdr] at hins
  simp only [listSplice, Bool.not_true, Bool.false_eq_true, if_false, hcast, ← Nat.cast_ofNat,
    hkdef] at *
  rw [hkdef, hread, hrem]
  simp only [Except.bind]
  rw [hins]

/-- C3 witness: splice(-1) on a 3-element list removes and returns exactly
the last element, leaving 2 elements. -/
theorem claim_c3_witness :
    (-(([1, 2, 3] : List Nat).length : Int) ≤ -1)
    ∧ listSplice (id : Nat → Nat) id true [1, 2, 3] (-1) none [] = .ok ([3], [1, 2]) := by
  refine ⟨by decide, ?_⟩
  have h := claim_c3_amended (id : Nat → Nat) id [1, 2, 3] (-1) none [] (by decide)
  simpa using h

/-- C8: inside a write transaction, pop returns undefined and leaves the
list unchanged when the list is empty, otherwise removes the last element
and returns it marshalled through fromBinding; shift does the same for the
first element. -/
theorem claim_c8 {α β : Type} (fromBinding : α → β) :
    listPop fromBinding true ([] : List α) = .ok (none, [])
    ∧ listShift fromBinding true ([] : List α) = .ok (none, [])
    ∧ (∀ (front : List α) (a : α),
        listPop fromBinding true (front ++ [a]) = .ok (some (fromBinding a), front))
    ∧ (∀ (a : α) (rest : List α),
        listShift fromBinding true (a :: rest) = .ok (some (fromBinding a), rest)) := by
  refine ⟨rfl, rfl, ?_, ?_⟩
  · intro front a
    have hlen : (front ++ [a]).length = front.length + 1 := by simp
    have hidx : ((front ++ [a]).length : Int) - 1 = ((front.length : Nat) : Int) := by
      rw [hlen]; push_cast; ring
    have hget : bindingGetAny (front ++ [a]) ((front.length : Nat) : Int) = .ok a := by
      simp only [bindingGetAny, Int.toNat_natCast]
      rw [if_pos (by positivity)]
      rw [List.getElem?_append_right (le_refl _)]
      simp
    have hrem : bindingRemove (front ++ [a]) ((front.length : Nat) : Int) = .ok front := by
      simp only [bindingRemove, Int.toNat_natCast]
      rw [if_pos (by refine ⟨by positivity, ?_⟩; rw [hlen]; push_cast; omega)]
      rw [List.take_append_of_le_length (le_refl _), List.take_length]
      rw [show front.length + 1 = (front ++ [a]).length from hlen.symm, List.drop_length,
          List.append_nil]
    simp only [listPop, Bool.not_true, Bool.false_eq_true, if_false, hidx, hget, hrem,
      Except.bind]
    rw [if_pos (by positivity)]
  · intro a rest
    have hget : bindingGetAny (a :: rest) 0 = .ok a := by
      simp [bindingGetAny]
    have hrem : bindingRemove (a :: rest) 0 = .ok rest := by
      simp [bindingRemove]
    simp [listShift, hget, hrem, Except.bind]

/-- C10: pop and shift assert the write transaction before checking
emptiness, so on an empty list outside a write transaction they raise the
transaction-state error instead of returning undefined. -/
theorem claim_c10 {α β : Type} (fromBinding : α → β) :
    listPop fromBinding false ([] : List α) = .error .transactionState
    ∧ listShift fromBinding false ([] : List α) = .error .transactionState :=
  ⟨rfl, rfl⟩

/-- C9: the notification delivery wrapper installed by the Dictionary
constructor never lets an exception raised inside the callback (or inside
the key assertions) propagate synchronously back into the engine delivery
call: its synchronous result is always ok, and the failure is instead
carried on the deferred channel (the setImmediate rethrow), where it
surfaces exactly when the wrapped attempt raised. -/
theorem claim_c9 (callback : DictStringChangeSet → Except CallbackErr Unit)
    (changes : DictChangeSet) :
    (dictionaryNotificationWrapper callback changes).1 = .ok ()
    ∧ ((dictionaryNotificationWrapper callback changes).2 = none
        ↔ notificationAttempt callback changes = .ok ())
    ∧ (∀ e, notificationAttempt callback changes = .error e →
        (dictionaryNotificationWrapper callback changes).2 = some e) := by
  unfold dictionaryNotificationWrapper
  cases h : notificationAttempt callback changes with
  | ok u => cases u; exact ⟨rfl, by simp, by simp⟩
  | error e => exact ⟨rfl, by simp, by intro e' he'; simp at he'; simp [he']⟩

/-- C9 witness: a callback that throws has its exception deferred, not
propagated. -/
theorem claim_c9_witness :
    (dictionaryNotificationWrapper (fun _ => .error (.userError 3))
      { deletions := [.str "a"], insertions := [], modifications := [] }).2 =
      some (.userError 3) :=
  (claim_c9 (fun _ => .error (.userError 3))
    { deletions := [.str "a"], insertions := [], modifications := [] }).2.2
    (.userError 3) (by decide)

/-- C5: validateCanonicalPropertySchema raises exactly on a list of lists,
an optional list of non-primitive elements, or an empty object type; in
particular it rejects a list of optional Person elements and accepts a
list of optional int elements. -/
theorem claim_c5 :
    (∀ (objectSchemaName : String) (c : CanonicalPropertySchema),
        (∃ e, validateCanonicalPropertySchema objectSchemaName c = .error e)
          ↔ (c.type = "list" ∧ c.objectType = some "list")
            ∨ (c.type = "list" ∧ isPrimitiveOpt c.objectType = false ∧ c.optional = true)
            ∨ c.objectType = some "")
    ∧ (∃ e, validateCanonicalPropertySchema "X"
        { name := "p", type := "list", objectType := some "Person", optional := true,
          mapTo := "p" } = .error e)
    ∧ validateCanonicalPropertySchema "X"
        { name := "p", type := "list", objectType := some "int", optional := true,
          mapTo := "p" } = .ok () := by
  refine ⟨?_,
    ⟨.err "List property X#p of nonprimitive elements, cannot be optional", by decide⟩,
    by decide⟩
  intro n c
  unfold validateCanonicalPropertySchema
  split_ifs with h1 h2 h3
  · simp only [Bool.and_eq_true, beq_iff_eq] at h1
    exact ⟨fun _ => Or.inl h1, fun _ => ⟨_, rfl⟩⟩
  · simp only [Bool.and_eq_true, beq_iff_eq, Bool.not_eq_true'] at h2
    exact ⟨fun _ => Or.inr (Or.inl ⟨h2.1.1, h2.1.2, h2.2⟩), fun _ => ⟨_, rfl⟩⟩
  · simp only [beq_iff_eq] at h3
    exact ⟨fun _ => Or.inr (Or.inr h3), fun _ => ⟨_, rfl⟩⟩
  · simp only [Bool.and_eq_true, beq_iff_eq, Bool.not_eq_true', not_and] at h1 h2 h3
    constructor
    · rintro ⟨e, he⟩
      exact absurd he (by simp)
    · rintro (⟨ht, ho⟩ | ⟨ht, hp, hopt⟩ | ho)
      · exact absurd (And.intro ht ho) (by simpa using h1)
      · exact absurd hopt (by simpa [ht, hp] using h2)
      · exact absurd ho (by simpa using h3)

/-- C1 counterexample: the object declaration with type list and objectType
mixed contributes no optional field at all, so the mixed assert (which only
rejects an explicit optional false) passes and the canonical result
defaults optional to false while carrying objectType mixed — accepted, with
optional equal to false. -/
theorem claim_c1_counterexample :
    normalizePropertySchema "p" (.obj { type := "list", objectType := some "mixed" }) =
      .ok { name := "p", type := "list", objectType := some "mixed",
            optional := false, indexed := false, mapTo := "p" }
    ∧ ({ name := "p", type := "list", objectType := some "mixed",
         optional := false, indexed := false, mapTo := "p" }
        : CanonicalPropertySchema).optional = false := by
  exact ⟨by decide, rfl⟩

/-- C1 (amended): for every object-form property declaration accepted by
normalizePropertySchema whose canonical result has type mixed or objectType
mixed, the declaration did not explicitly set optional to false — the
assert checks the merged schema before defaults are applied, so the
canonical optional field itself may still be false when nothing set it (as
in the counterexample). -/
theorem claim_c1_amended (name : String) (d : PropertyDeclObj) (c : CanonicalPropertySchema)
    (hok : normalizePropertySchema name (.obj d) = .ok c)
    (hmixed : c.type = "mixed" ∨ c.objectType = some "mixed") :
    d.optional ≠ some false := by
  intro hfalse
  simp only [normalizePropertySchema, normalizePropertySchemaObj] at hok
  cases hp : normalizePropertyType d.type d.objectType.isNone with
  | error e => rw [hp] at hok; exact absurd hok (by simp [Except.bind])
  | ok parsed =>
    rw [hp] at hok
    simp only [Except.bind] at hok
    have hmo : mergedOptional d parsed = some false := by
      simp [mergedOptional, hfalse]
    rw [hmo] at hok
    by_cases hb : (parsed.type == "mixed" || mergedObjectType d parsed == some "mixed") = true
    · rw [if_pos (by simp [hb])] at hok
      exact absurd hok (by simp)
    · rw [if_neg (by simp only [Bool.and_eq_true]; intro hc; exact hb hc.1)] at hok
      simp only [Except.ok.injEq] at hok
      subst hok
      simp only [Bool.or_eq_true, beq_iff_eq, not_or] at hb
      exact absurd hmixed (by simpa using hb)

/-- C1 witness: a plain mixed declaration is accepted and indeed does not
declare optional false. -/
theorem claim_c1_witness :
    ({ type := "mixed" } : PropertyDeclObj).optional ≠ some false :=
  claim_c1_amended "m" { type := "mixed" }
    { name := "m", type := "mixed", optional := true, mapTo := "m" }
    (by decide) (Or.inl rfl)

/-- Question-mark case as the claim words it: recursively parse the
remainder and set optional true on that recursive parse result. Stated from
the claim for comparison with the code, which does not recurse. -/
def questionRecursiveParse (s : String) : Except SchemaErr ParsedPropertyType :=
  (normalizePropertyType s true).map fun item => { item with optional := some true }

/-- C2 counterexample: on the input Person? the code returns the stripped
string as the type verbatim, while the recursive-parse description would
classify Person as an object link and produce type object with objectType
Person. -/
theorem claim_c2_counterexample :
    normalizePropertyType "Person?" true =
      .ok { type := "Person", objectType := none, optional := some true }
    ∧ questionRecursiveParse "Person" =
      .ok { type := "object", objectType := some "Person", optional := some true }
    ∧ normalizePropertyType "Person?" true ≠ questionRecursiveParse "Person" := by
  refine ⟨by decide, by decide, by decide⟩

/-- C2 (amended): for every type string ending in a question mark, the
parser strips the suffix and returns optional true with the remainder kept
verbatim as the type, without re-parsing the remainder; on int? this
coincides with the recursive description: optional true, type int. -/
theorem claim_c2_amended (s : String) :
    normalizePropertyType (s ++ "?") true =
      .ok { type := s, objectType := none, optional := some true }
    ∧ normalizePropertyType "int?" true =
      .ok { type := "int", objectType := none, optional := some true } := by
  refine ⟨?_, by decide⟩
  cases s with
  | mk l =>
    have hd : (String.mk l ++ "?").data = l ++ ['?'] := rfl
    unfold normalizePropertyType
    rw [hd, List.reverse_append]
    show parseRev true ('?' :: l.reverse) = _
    rw [show parseRev true ('?' :: l.reverse) =
          .ok { type := strOfRev l.reverse, optional := some true } from rfl]
    simp [strOfRev, List.reverse_reverse]

/-- C4: the end-to-end Person example normalizes successfully with the
expected canonical age and friends properties. -/
theorem claim_c4 :
    (normalizeObjectSchema false
      { name := "Person",
        properties := .map [("name", .str "string"), ("age", .str "int?"),
                            ("friends", .str "Person[]")] }).toOption.map
        (fun s => (s.properties.lookup "age", s.properties.lookup "friends")) =
      some (some { name := "age", type := "int", objectType := none,
                   optional := true, indexed := false, mapTo := "age" },
            some { name := "friends", type := "list", objectType := some "Person",
                   optional := false, indexed := false, mapTo := "friends" }) := by
  decide

/-- C6: an object-schema declaration whose properties field is the legacy
array form fails with the SchemaError when the compatibility flag is
disabled, and with the flag enabled normalizes exactly as the declaration
with properties rewritten to the mapping form with the same entries. -/
theorem claim_c6 (nm : String) (pk : Option String) (asym emb : Option Bool)
    (entries : List (String × PropertyDeclObj)) :
    normalizeObjectSchema false ⟨nm, pk, asym, emb, .array entries⟩ =
      .error (.err "Array of properties are no longer supported")
    ∧ normalizeObjectSchema true ⟨nm, pk, asym, emb, .array entries⟩ =
        normalizeObjectSchema true ⟨nm, pk, asym, emb, rewriteArrayProperties entries⟩ :=
  ⟨rfl, rfl⟩

theorem mem_of_lookup_eq_some {β : Type} :
    ∀ (l : List (String × β)) (k : String) (v : β),
      l.lookup k = some v → (k, v) ∈ l
  | [], _, _, h => by simp [List.lookup] at h
  | (k', v') :: rest, k, v, h => by
      rw [List.lookup] at h
      cases hk : k == k' with
      | true =>
          simp only [hk] at h
          simp only [Option.some.injEq] at h
          subst h
          have : k = k' := by simpa using hk
          subst this
          exact List.mem_cons_self _ _
      | false =>
          simp only [hk] at h
          exact List.mem_cons_of_mem _ (mem_of_lookup_eq_some rest k v h)

theorem normalizeObjectProperties_indexed (pk : String) (primaryKey : Option String)
    (objName : String) (hpk : primaryKey = some pk) :
    ∀ (entries : List (String × PropertyDecl)) (props : List (String × CanonicalPropertySchema)),
      normalizeObjectProperties primaryKey objName entries = .ok props →
      ∀ (c : CanonicalPropertySchema), (pk, c) ∈ props → c.indexed = true
  | [], props, hok, c, hmem => by
      simp only [normalizeObjectProperties, Except.ok.injEq] at hok
      subst hok
      simp at hmem
  | (name, p) :: rest, props, hok, c, hmem => by
      simp only [normalizeObjectProperties] at hok
      cases hq : normalizePropertySchema name p with
      | error e => rw [hq] at hok; exact absurd hok (by simp [Except.bind])
      | ok c0 =>
        rw [hq] at hok
        simp only [Except.bind] at hok
        cases hv : validateCanonicalPropertySchema objName
            (if (primaryKey == some name) = true then { c0 with indexed := true } else c0) with
        | error e => rw [hv] at hok; exact absurd hok (by simp)
        | ok u =>
          cases u
          rw [hv] at hok
          cases hr : normalizeObjectProperties primaryKey objName rest with
          | error e => rw [hr] at hok; exact absurd hok (by simp)
          | ok others =>
            rw [hr] at hok
            simp only [Except.ok.injEq] at hok
            subst hok
            rcases List.mem_cons.mp hmem with hhead | htail
            · have hkc : pk = name ∧
                  c = if (primaryKey == some name) = true then { c0 with indexed := true }
                      else c0 := by
                exact ⟨congrArg Prod.fst hhead, congrArg Prod.snd hhead⟩
              rcases hkc with ⟨hk, hc⟩
              subst hk
              rw [if_pos (by simp [hpk])] at hc
              rw [hc]
            · exact normalizeObjectProperties_indexed pk primaryKey objName hpk rest others hr c htail

/-- C7: for every object-schema declaration accepted by
normalizeObjectSchema that declares a primaryKey, the canonical property
looked up under that name has indexed true, whatever the raw declaration
said. -/
theorem claim_c7 (flag : Bool) (arg : ObjectSchemaDecl) (s : CanonicalObjectSchema)
    (pk : String) (c : CanonicalPropertySchema)
    (hok : normalizeObjectSchema flag arg = .ok s)
    (hpk : arg.primaryKey = some pk)
    (hlook : s.properties.lookup pk = some c) :
    c.indexed = true := by
  have hcore : ∀ (arg' : ObjectSchemaDecl) (entries : List (String × PropertyDecl)),
      arg'.primaryKey = some pk →
      normalizeObjectSchemaCore arg' entries = .ok s →
      c.indexed = true := by
    intro arg' entries hpk' hok'
    simp only [normalizeObjectSchemaCore] at hok'
    cases hp : normalizeObjectProperties arg'.primaryKey arg'.name entries with
    | error e => rw [hp] at hok'; exact absurd hok' (by simp [Except.bind])
    | ok props =>
      rw [hp] at hok'
      simp only [Except.bind, Except.ok.injEq] at hok'
      have hprops : s.properties = props := by rw [← hok']
      exact normalizeObjectProperties_indexed pk arg'.primaryKey arg'.name hpk' entries props hp c
        (mem_of_lookup_eq_some props pk c (hprops ▸ hlook))
  cases harg : arg.properties with
  | map entries =>
      rw [normalizeObjectSchema, harg] at hok
      exact hcore arg entries hpk hok
  | array entries =>
      rw [normalizeObjectSchema, harg] at hok
      cases flag with
      | false => exact absurd hok (by simp)
      | true =>
          simp only [if_true] at hok
          exact hcore _ _ hpk hok

/-- C7 witness: a schema declaring primaryKey id yields indexed true on the
canonical id property even though the declaration never set indexed. -/
theorem claim_c7_witness :
    ({ name := "id", type := "int", optional := false, indexed := true, mapTo := "id" }
      : CanonicalPropertySchema).indexed = true :=
  claim_c7 false
    { name := "T", primaryKey := some "id", properties := .map [("id", .str "int")] }
    { name := "T", primaryKey := some "id",
      properties := [("id", { name := "id", type := "int", optional := false,
                              indexed := true, mapTo := "id" })] }
    "id"
    { name := "id", type := "int", optional := false, indexed := true, mapTo := "id" }
    (by decide) rfl (by decide)

end RealmSpec
